import Mathlib

/-!
Shallow embedding of the core request-to-result pipeline of the
claude-code-api-gateway repository: query normalization and fingerprinting
(src/utils/prompt.js), intent detection and MCP routing (src/utils/prompt.js,
src/services/mcp.js), the retry helper (src/utils/retry.js), webhook delivery
(src/services/webhook.js), the execution backend's output handling
(src/services/claude.js), the submission route (src/routes/query.js), the
in-flight tracker (src/services/deduplication.js) and the queue worker
(src/queues/processor.js).

Strings are Lean Strings restricted to the ASCII behaviour of the JS string
operations used by the code; machine words are Nat with explicit reduction
modulo 2^32 where the source (sha256) works on 32-bit words.
-/

/-! ## Query normalization (src/utils/prompt.js, normalizeQuery) -/

/-- JS whitespace as matched by String.prototype.trim and the regex \s for the
ASCII range used by the gateway. -/
def isJsWS (c : Char) : Bool :=
  c = ' ' || c = '\t' || c = '\n' || c = '\r' || c = '\x0b' || c = '\x0c'

/-- Leading/trailing whitespace removal, JS String.prototype.trim. -/
def jsTrim (l : List Char) : List Char :=
  ((l.dropWhile isJsWS).reverse.dropWhile isJsWS).reverse

/-- One pass of replace(/\s+/g, ' '): the Bool flag records whether the
previous character was part of a whitespace run already replaced. -/
def collapseWS : Bool → List Char → List Char
  | _, [] => []
  | prevWS, c :: t =>
    if isJsWS c then
      if prevWS then collapseWS true t else ' ' :: collapseWS true t
    else c :: collapseWS false t

/-- query.trim().toLowerCase().replace(/\s+/g, ' ') -/
def normalizeQuery (query : String) : String :=
  String.mk (collapseWS false ((jsTrim query.toList).map Char.toLower))

/-! ## JSON values and JSON.stringify (payload of generateQueryHash)

Context maps arrive as the parsed JSON body's context object; values are
modelled as JSON scalars, which is all the hashing path inspects. -/

inductive JsonVal where
  | jnull : JsonVal
  | jbool : Bool → JsonVal
  | jnum : Int → JsonVal
  | jstr : String → JsonVal
deriving DecidableEq

/-- An object is its fields in insertion order, as JS objects preserve it. -/
abbrev Ctx := List (String × JsonVal)

def hexDigitChar (n : Nat) : Char :=
  if n < 10 then Char.ofNat (48 + n) else Char.ofNat (87 + n)

/-- JSON.stringify escaping of one character inside a string literal. -/
def jsonEscapeChar (c : Char) : List Char :=
  if c = '"' then ['\\', '"']
  else if c = '\\' then ['\\', '\\']
  else if c = '\n' then ['\\', 'n']
  else if c = '\r' then ['\\', 'r']
  else if c = '\t' then ['\\', 't']
  else if c = '\x08' then ['\\', 'b']
  else if c = '\x0c' then ['\\', 'f']
  else if c.toNat < 32 then
    ['\\', 'u', '0', '0', hexDigitChar (c.toNat / 16), hexDigitChar (c.toNat % 16)]
  else [c]

def jsonQuote (s : String) : String :=
  String.mk ('"' :: s.toList.flatMap jsonEscapeChar ++ ['"'])

def stringifyVal : JsonVal → String
  | .jnull => "null"
  | .jbool true => "true"
  | .jbool false => "false"
  | .jnum n => toString n
  | .jstr s => jsonQuote s

/-- JSON.stringify of an object given as an ordered field list. -/
def stringifyObj (fields : Ctx) : String :=
  "\x7b" ++ String.intercalate "," (fields.map fun p => jsonQuote p.1 ++ ":" ++ stringifyVal p.2) ++ "\x7d"

/-- JS object property assignment: an existing key keeps its position and gets
the new value, a new key is appended at the end. -/
def assocSet (k : String) (v : α) : List (String × α) → List (String × α)
  | [] => [(k, v)]
  | (k', v') :: t => if k' = k then (k', v) :: t else (k', v') :: assocSet k v t

/-- The object literal with spread, JS semantics of the expression
(base spread ctx): ctx properties assigned left to right into base. -/
def spreadMerge (base : Ctx) (ctx : Ctx) : Ctx :=
  ctx.foldl (fun acc p => assocSet p.1 p.2 acc) base

/-! ## UTF-8 encoding (crypto hashes the utf8 bytes of the payload) -/

def utf8EncodeChar (c : Char) : List Nat :=
  let n := c.toNat
  if n < 128 then [n]
  else if n < 2048 then [192 ||| (n >>> 6), 128 ||| (n &&& 63)]
  else if n < 65536 then
    [224 ||| (n >>> 12), 128 ||| ((n >>> 6) &&& 63), 128 ||| (n &&& 63)]
  else
    [240 ||| (n >>> 18), 128 ||| ((n >>> 12) &&& 63),
     128 ||| ((n >>> 6) &&& 63), 128 ||| (n &&& 63)]

def utf8Encode (s : String) : List Nat :=
  s.toList.flatMap utf8EncodeChar

/-! ## SHA-256 (crypto.createHash of node, FIPS 180-4) over byte lists -/

def w32 (x : Nat) : Nat := x % 4294967296

def rotr32 (n x : Nat) : Nat := w32 ((x >>> n) ||| (x <<< (32 - n)))

def shaCh (x y z : Nat) : Nat := (x &&& y) ^^^ ((4294967295 ^^^ x) &&& z)

def shaMaj (x y z : Nat) : Nat := (x &&& y) ^^^ (x &&& z) ^^^ (y &&& z)

def bigSigma0 (x : Nat) : Nat := rotr32 2 x ^^^ rotr32 13 x ^^^ rotr32 22 x

def bigSigma1 (x : Nat) : Nat := rotr32 6 x ^^^ rotr32 11 x ^^^ rotr32 25 x

def smallSigma0 (x : Nat) : Nat := rotr32 7 x ^^^ rotr32 18 x ^^^ (x >>> 3)

def smallSigma1 (x : Nat) : Nat := rotr32 17 x ^^^ rotr32 19 x ^^^ (x >>> 10)

def shaK : List Nat :=
  [1116352408, 1899447441, 3049323471, 3921009573, 961987163, 1508970993,
   2453635748, 2870763221, 3624381080, 310598401, 607225278, 1426881987,
   1925078388, 2162078206, 2614888103, 3248222580, 3835390401, 4022224774,
   264347078, 604807628, 770255983, 1249150122, 1555081692, 1996064986,
   2554220882, 2821834349, 2952996808, 3210313671, 3336571891, 3584528711,
   113926993, 338241895, 666307205, 773529912, 1294757372, 1396182291,
   1695183700, 1986661051, 2177026350, 2456956037, 2730485921, 2820302411,
   3259730800, 3345764771, 3516065817, 3600352804, 4094571909, 275423344,
   430227734, 506948616, 659060556, 883997877, 958139571, 1322822218,
   1537002063, 1747873779, 1955562222, 2024104815, 2227730452, 2361852424,
   2428436474, 2756734187, 3204031479, 3329325298]

def shaH0 : List Nat :=
  [1779033703, 3144134277, 1013904242, 2773480762, 1359893119,
   2600822924, 528734635, 1541459225]

/-- Big-endian bytes of a value, given a byte count. -/
def beBytes : Nat → Nat → List Nat
  | 0, _ => []
  | k + 1, x => (x >>> (8 * k)) % 256 :: beBytes k x

/-- FIPS padding: a 0x80 byte, zeros to 56 mod 64, then the bit length. -/
def sha256Pad (msg : List Nat) : List Nat :=
  let len := msg.length
  let zeros := (56 + 64 - (len + 1) % 64) % 64
  msg ++ 128 :: List.replicate zeros 0 ++ beBytes 8 (len * 8)

def bytesToWords : List Nat → List Nat
  | b0 :: b1 :: b2 :: b3 :: rest =>
    (((b0 * 256 + b1) * 256 + b2) * 256 + b3) :: bytesToWords rest
  | _ => []

/-- Message schedule, built onto a reversed accumulator so the last four
needed entries sit at fixed offsets from the head. -/
def shaSchedule : Nat → List Nat → List Nat
  | 0, acc => acc
  | k + 1, acc =>
    let g := fun i => acc.getD i 0
    shaSchedule k (w32 (smallSigma1 (g 1) + g 6 + smallSigma0 (g 14) + g 15) :: acc)

structure ShaState where
  a : Nat
  b : Nat
  c : Nat
  d : Nat
  e : Nat
  f : Nat
  g : Nat
  h : Nat
deriving DecidableEq

def shaRound (st : ShaState) (kw : Nat × Nat) : ShaState :=
  let t1 := w32 (st.h + bigSigma1 st.e + shaCh st.e st.f st.g + kw.1 + kw.2)
  let t2 := w32 (bigSigma0 st.a + shaMaj st.a st.b st.c)
  ⟨w32 (t1 + t2), st.a, st.b, st.c, w32 (st.d + t1), st.e, st.f, st.g⟩

def shaCompress (hs : List Nat) (block : List Nat) : List Nat :=
  let ws := (shaSchedule 48 (bytesToWords block).reverse).reverse
  let g := fun i => hs.getD i 0
  let st0 : ShaState := ⟨g 0, g 1, g 2, g 3, g 4, g 5, g 6, g 7⟩
  let st := (shaK.zip ws).foldl shaRound st0
  [w32 (g 0 + st.a), w32 (g 1 + st.b), w32 (g 2 + st.c), w32 (g 3 + st.d),
   w32 (g 4 + st.e), w32 (g 5 + st.f), w32 (g 6 + st.g), w32 (g 7 + st.h)]

/-- Process the padded message block by block; fuel is the block count. -/
def shaBlocks : Nat → List Nat → List Nat → List Nat
  | 0, hs, _ => hs
  | k + 1, hs, bytes => shaBlocks k (shaCompress hs (bytes.take 64)) (bytes.drop 64)

def sha256Words (msg : List Nat) : List Nat :=
  let padded := sha256Pad msg
  shaBlocks (padded.length / 64) shaH0 padded

/-- Hex digits of one 32-bit word, most significant nibble first. -/
def wordHex : Nat → Nat → List Char
  | 0, _ => []
  | k + 1, x => hexDigitChar ((x >>> (4 * k)) % 16) :: wordHex k x

def sha256Hex (msg : List Nat) : String :=
  String.mk ((sha256Words msg).flatMap (wordHex 8))

/-! ## Fingerprint (src/utils/prompt.js, generateQueryHash) -/

def generateQueryHash (query : String) (context : Ctx) : String :=
  let normalized := normalizeQuery query
  let payload := stringifyObj (spreadMerge [("query", JsonVal.jstr normalized)] context)
  (sha256Hex (utf8Encode payload)).take 16

/-! ## Intent detection (src/utils/prompt.js, detectIntent)

The regexes are of the shape /\b(kw1|kw2|...)\b/i: a case-insensitive
keyword alternation between word boundaries. -/

def isWordChar (c : Char) : Bool := c.isAlpha || c.isDigit || c = '_'

def headMatches : List Char → List Char → Bool
  | [], _ => true
  | _ :: _, [] => false
  | k :: kt, c :: ct => k = c && headMatches kt ct

/-- A \b word boundary between an adjacent character (none at the string
edge) and the matched run's edge character. -/
def boundaryAt (adj : Option Char) (inner : Char) : Bool :=
  match adj with
  | none => isWordChar inner
  | some c => isWordChar c != isWordChar inner

def kwMatchAt (kw : List Char) (left : Option Char) (rest : List Char) : Bool :=
  headMatches kw rest &&
  (match kw.head? with
   | none => false
   | some c => boundaryAt left c) &&
  (match kw.getLast? with
   | none => false
   | some c => boundaryAt ((rest.drop kw.length).head?) c)

def kwScan (kw : List Char) : Option Char → List Char → Bool
  | left, l =>
    kwMatchAt kw left l ||
    match l with
    | [] => false
    | c :: t => kwScan kw (some c) t

/-- pattern.test(query) for one keyword of the alternation; /i is modelled by
lowercasing the subject, the keyword lists being lower-case already. -/
def testKeyword (q : String) (kw : String) : Bool :=
  kwScan kw.toList none (q.toList.map Char.toLower)

def testPattern (q : String) (kws : List String) : Bool :=
  kws.any (testKeyword q)

/-- Order matters - the source checks more specific patterns first. -/
def intentPatterns : List (String × List String) :=
  [("web", ["http", "api", "fetch", "url", "endpoint", "rest", "graphql"]),
   ("database", ["sql", "database", "table", "schema", "select", "insert", "update", "delete", "join"]),
   ("filesystem", ["file", "folder", "directory", "path", ".txt", ".json", ".csv", ".md"]),
   ("code", ["function", "class", "implement", "refactor", "debug", "method", "variable"])]

def detectIntentGo (q : String) : List (String × List String) → String
  | [] => "general"
  | (intent, kws) :: rest => if testPattern q kws then intent else detectIntentGo q rest

def detectIntent (q : String) : String := detectIntentGo q intentPatterns

/-! ## MCP routing (src/services/mcp.js) -/

def assocGet (k : String) : List (String × α) → Option α
  | [] => none
  | (k', v) :: t => if k' = k then some v else assocGet k t

def MCP_SERVERS : List (String × String) :=
  [("database", "sqlite"), ("filesystem", "filesystem"), ("web", "fetch"), ("code", "github")]

def getServersForQuery (enabled : Bool) (query : String) : List String :=
  if !enabled then []
  else
    match assocGet (detectIntent query) MCP_SERVERS with
    | some server => [server]
    | none => []

/-! ## Retry helper (src/utils/retry.js, withRetry)

The attempt behaviour is a function from the 1-based attempt number to the
body's outcome. The trace records how many times the body ran and the
backoff delays slept between attempts; outcome (ok none) is the JS path
where the loop never runs (maxRetries = 0) and the function resolves with
undefined. -/

deriving instance DecidableEq for Except

structure RetryResult (α : Type) where
  attempts : Nat
  delays : List Nat
  outcome : Except String (Option α)
deriving DecidableEq

def withRetryGo (fn : Nat → Except String α) (baseDelay maxDelay maxRetries : Nat) :
    Nat → Nat → RetryResult α
  | 0, _ => ⟨0, [], .ok none⟩
  | fuel + 1, attempt =>
    match fn attempt with
    | .ok a => ⟨1, [], .ok (some a)⟩
    | .error e =>
      if attempt = maxRetries then ⟨1, [], .error e⟩
      else
        let d := min (baseDelay * 2 ^ (attempt - 1)) maxDelay
        let r := withRetryGo fn baseDelay maxDelay maxRetries fuel (attempt + 1)
        ⟨r.attempts + 1, d :: r.delays, r.outcome⟩

def withRetry (fn : Nat → Except String α) (baseDelay maxDelay maxRetries : Nat) : RetryResult α :=
  withRetryGo fn baseDelay maxDelay maxRetries maxRetries 1

/-! ## Webhook delivery (src/services/webhook.js, WebhookService.deliver) -/

/-- What one fetch of the webhook URL does on a given attempt: an HTTP
response, or a network/abort error rejecting the fetch. -/
inductive FetchOutcome where
  | resp (ok : Bool) (status : Nat)
  | netError (msg : String)

def deliverAttempt (endpoint : Nat → FetchOutcome) (n : Nat) : Except String (Bool × Nat) :=
  match endpoint n with
  | .resp ok status =>
    if !ok then .error ("Webhook failed: " ++ toString status) else .ok (true, status)
  | .netError msg => .error msg

/-- deliver(url, payload, \x7bmaxRetries\x7d): the url and payload do not
influence control flow, which depends on the endpoint's behaviour only.
baseDelay and maxDelay are withRetry's defaults (1000, 30000). -/
def deliver (endpoint : Nat → FetchOutcome) (maxRetries : Nat) : RetryResult (Bool × Nat) :=
  withRetry (deliverAttempt endpoint) 1000 30000 maxRetries

/-! ## Execution backend (src/services/claude.js, ClaudeService.execute) -/

inductive ExecValue where
  | json (v : JsonVal)
  | text (response : String)
deriving DecidableEq

/-- The close handler of the spawned process: on exit code 0 attempt
JSON.parse of stdout (the parse function stands for JSON.parse, some j on
success), falling back to \x7bresponse: stdout.trim(), format: 'text'\x7d;
on a non-zero code, reject. -/
def handleClose (parse : String → Option JsonVal) (code : Int) (stdout stderr : String) :
    Except String ExecValue :=
  if code = 0 then
    match parse stdout with
    | some j => .ok (.json j)
    | none => .ok (.text (String.mk (jsTrim stdout.toList)))
  else .error ("Claude exited with code " ++ toString code ++ ": " ++ stderr)

/-- execute: one spawn per attempt (procRun n = exit code, stdout, stderr of
the n-th attempt) run under withRetry with its default delays. -/
def executeClaude (parse : String → Option JsonVal) (procRun : Nat → Int × String × String)
    (maxRetries : Nat) : RetryResult ExecValue :=
  withRetry (fun n => handleClose parse (procRun n).1 (procRun n).2.1 (procRun n).2.2)
    1000 30000 maxRetries

/-! ## Shared store state (redis) and the dedup service
(src/services/deduplication.js): markInFlight is SETEX — an unconditional
set with a TTL — and clearInFlight is DEL. The cache
(src/services/cache.js) lives under its own prefix; both are modelled as
association lists keyed by the fingerprint, TTLs not modelled (no claim
exercises expiry). -/

structure Job where
  id : String
  query : String
  webhookUrl : Option String
  context : Ctx
deriving DecidableEq

structure SysState where
  cache : List (String × ExecValue)
  dedup : List (String × String)
  jobs : List Job
deriving DecidableEq

/-- Redis DEL of one key. -/
def assocDel (k : String) : List (String × α) → List (String × α)
  | [] => []
  | (k', v) :: t => if k' = k then assocDel k t else (k', v) :: assocDel k t

def isInFlight (st : SysState) (hash : String) : Bool :=
  (assocGet hash st.dedup).isSome

def markInFlight (st : SysState) (hash jobId : String) : SysState :=
  { st with dedup := assocSet hash jobId st.dedup }

def clearInFlight (st : SysState) (hash : String) : SysState :=
  { st with dedup := assocDel hash st.dedup }

def getJobId (st : SysState) (hash : String) : Option String :=
  assocGet hash st.dedup

def cacheGet (st : SysState) (hash : String) : Option ExecValue :=
  assocGet hash st.cache

def cacheSet (st : SysState) (hash : String) (v : ExecValue) : SysState :=
  { st with cache := assocSet hash v st.cache }

/-! ## The submission route (src/routes/query.js, POST /query)

Each store access of the handler is one atomic step against the shared
state, so that two handlers can interleave exactly at the await points of
the source: cache.get, dedup.getJobId, queue.add, dedup.markInFlight. -/

structure Request where
  requestId : String
  query : String
  webhookUrl : Option String
  context : Ctx

inductive SubmitResponse where
  | cachedResp (result : ExecValue)
  | duplicate (jobId : String)
  | queued (jobId : String)
deriving DecidableEq

inductive ReqPhase where
  | start
  | checkedCache
  | checkedDedup
  | enqueued
  | idle (resp : SubmitResponse)
deriving DecidableEq

def reqStep (dedupEnabled : Bool) (req : Request) (st : SysState) :
    ReqPhase → SysState × ReqPhase
  | .start =>
    match cacheGet st (generateQueryHash req.query req.context) with
    | some v => (st, .idle (.cachedResp v))
    | none => (st, .checkedCache)
  | .checkedCache =>
    if dedupEnabled then
      match getJobId st (generateQueryHash req.query req.context) with
      | some jobId => (st, .idle (.duplicate jobId))
      | none => (st, .checkedDedup)
    else (st, .checkedDedup)
  | .checkedDedup =>
    ({ st with jobs := st.jobs ++ [⟨req.requestId, req.query, req.webhookUrl, req.context⟩] },
     .enqueued)
  | .enqueued =>
    if dedupEnabled then
      (markInFlight st (generateQueryHash req.query req.context) req.requestId,
       .idle (.queued req.requestId))
    else (st, .idle (.queued req.requestId))
  | .idle r => (st, .idle r)

def runSubmit : Nat → Bool → Request → SysState → ReqPhase → SysState × ReqPhase
  | 0, _, _, st, ph => (st, ph)
  | fuel + 1, de, req, st, ph =>
    match ph with
    | .idle r => (st, .idle r)
    | _ =>
      match reqStep de req st ph with
      | (st', ph') => runSubmit fuel de req st' ph'

/-- The whole handler run without interleaving (a request that is alone). -/
def postQuery (dedupEnabled : Bool) (req : Request) (st : SysState) : SysState × ReqPhase :=
  runSubmit 5 dedupEnabled req st .start

/-- Two concurrent handlers; the schedule says which request takes the next
atomic step (true = A). -/
def runPair (de : Bool) (reqA reqB : Request) :
    List Bool → SysState → ReqPhase → ReqPhase → SysState × ReqPhase × ReqPhase
  | [], st, phA, phB => (st, phA, phB)
  | side :: sched, st, phA, phB =>
    if side then
      match reqStep de reqA st phA with
      | (st', phA') => runPair de reqA reqB sched st' phA' phB
    else
      match reqStep de reqB st phB with
      | (st', phB') => runPair de reqA reqB sched st' phA phB'

/-! ## The queue worker (src/queues/processor.js, queryQueue.process)

The body re-checks the cache (short-circuiting on a hit), else runs the
backend, caches the result, clears the in-flight marker and delivers the
webhook; any error thrown inside the try block reaches the catch, which
clears the marker and rethrows, failing the job. claudeOut is what the
awaited claude.execute settles with for this job; endpoint is the webhook
target's behaviour, delivered with webhook.deliver's default options
(maxRetries 3). -/

inductive JobOutcome where
  | completedJob (result : ExecValue)
  | failedJob (err : String)
deriving DecidableEq

def processJob (claudeOut : Except String ExecValue) (endpoint : Nat → FetchOutcome)
    (st : SysState) (job : Job) : SysState × JobOutcome :=
  let hash := generateQueryHash job.query job.context
  match cacheGet st hash with
  | some cached =>
    match job.webhookUrl with
    | some _ =>
      match (deliver endpoint 3).outcome with
      | .error e => (clearInFlight st hash, .failedJob e)
      | .ok _ => (st, .completedJob cached)
    | none => (st, .completedJob cached)
  | none =>
    match claudeOut with
    | .error e => (clearInFlight st hash, .failedJob e)
    | .ok result =>
      let st1 := cacheSet st hash result
      let st2 := clearInFlight st1 hash
      match job.webhookUrl with
      | some _ =>
        match (deliver endpoint 3).outcome with
        | .error e => (clearInFlight st2 hash, .failedJob e)
        | .ok _ => (st2, .completedJob result)
      | none => (st2, .completedJob result)

/-! ## Association list lemmas -/

theorem assocGet_assocSet_self (k : String) (v : α) (l : List (String × α)) :
    assocGet k (assocSet k v l) = some v := by
  induction l with
  | nil => simp [assocSet, assocGet]
  | cons p t ih =>
    obtain ⟨k', v'⟩ := p
    by_cases h : k' = k
    · simp [assocSet, assocGet, h]
    · simp [assocSet, assocGet, h, ih]

theorem spreadMerge_query_key (c : Ctx) : ∀ (a b : JsonVal) (rest : Ctx),
    "query" ∈ c.map Prod.fst →
    spreadMerge (("query", a) :: rest) c = spreadMerge (("query", b) :: rest) c := by
  induction c with
  | nil => intro a b rest h; simp at h
  | cons p t ih =>
    intro a b rest h
    obtain ⟨k, v⟩ := p
    by_cases hk : k = "query"
    · subst hk
      simp [spreadMerge, List.foldl, assocSet]
    · have hne : ¬ ("query" = k) := fun e => hk e.symm
      have h' : "query" ∈ t.map Prod.fst := by
        simp only [List.map_cons, List.mem_cons] at h
        rcases h with h0 | h0
        · exact absurd h0 hne
        · exact h0
      simp only [spreadMerge, List.foldl, assocSet, if_neg hne]
      exact ih a b (assocSet k v rest) h'

/-! ## Claims about the fingerprint -/

/-- Claim C10: because the context map is spread into the hash payload after the
normalized query field, a context containing the key "query" overwrites the
normalized text, so the fingerprint no longer depends on the query text. -/
theorem hash_query_key_collision (t1 t2 : String) (c : Ctx)
    (h : "query" ∈ c.map Prod.fst) :
    generateQueryHash t1 c = generateQueryHash t2 c := by
  simp only [generateQueryHash]
  rw [spreadMerge_query_key c (JsonVal.jstr (normalizeQuery t1))
    (JsonVal.jstr (normalizeQuery t2)) [] h]

theorem hash_query_key_collision_witness :
    ("query" ∈ ([("query", JsonVal.jstr "x")] : Ctx).map Prod.fst) ∧
    generateQueryHash "alpha" [("query", JsonVal.jstr "x")] =
      generateQueryHash "beta" [("query", JsonVal.jstr "x")] :=
  ⟨by decide, hash_query_key_collision "alpha" "beta" _ (by decide)⟩

set_option maxRecDepth 10000 in
/-- Claim C4, counterexample: two context maps that are equal as key-value maps (one
is a permutation of the other, keys distinct) but listed in different
insertion order give different fingerprints for the same query text, because
the payload serializes context entries in insertion order. -/
theorem hash_context_order_sensitive :
    (([("a", JsonVal.jstr "1"), ("b", JsonVal.jstr "2")] : Ctx).Perm
      [("b", JsonVal.jstr "2"), ("a", JsonVal.jstr "1")]) ∧
    generateQueryHash "q" [("a", JsonVal.jstr "1"), ("b", JsonVal.jstr "2")] ≠
      generateQueryHash "q" [("b", JsonVal.jstr "2"), ("a", JsonVal.jstr "1")] :=
  ⟨by decide, by decide⟩

/-- Claim C4 as amended: for queries with equal normalized text and contexts that are
equal as ordered key-value sequences, the fingerprint is equal; it is a pure
function of (normalize(text), context) with no salt, so this holds across
repeated calls and process instances. -/
theorem generateQueryHash_deterministic (q1 q2 : String) (c1 c2 : Ctx)
    (hn : normalizeQuery q1 = normalizeQuery q2) (hc : c1 = c2) :
    generateQueryHash q1 c1 = generateQueryHash q2 c2 := by
  subst hc
  simp [generateQueryHash, hn]

theorem generateQueryHash_deterministic_witness :
    normalizeQuery "  What IS  2+2? " = normalizeQuery "what is 2+2?" ∧
    generateQueryHash "  What IS  2+2? " [("lang", JsonVal.jstr "en")] =
      generateQueryHash "what is 2+2?" [("lang", JsonVal.jstr "en")] :=
  ⟨by decide, generateQueryHash_deterministic _ _ _ _ (by decide) rfl⟩

/-! ## Claims about the submission route and the in-flight tracker -/

/-- Claim C5: with deduplication enabled, a second submission with equal normalized
text and equal context, made while the first submission's job is still in
flight (nothing cached for the fingerprint), answers status=duplicate with
the first call's job id. -/
theorem submit_twice_duplicate (q1 q2 : String) (c1 c2 : Ctx) (r1 r2 : String)
    (w1 w2 : Option String) (st0 : SysState)
    (hn : normalizeQuery q1 = normalizeQuery q2) (hc : c1 = c2)
    (hcache : cacheGet st0 (generateQueryHash q1 c1) = none)
    (hdedup : getJobId st0 (generateQueryHash q1 c1) = none) :
    (postQuery true ⟨r1, q1, w1, c1⟩ st0).2 = .idle (.queued r1) ∧
    (postQuery true ⟨r2, q2, w2, c2⟩ (postQuery true ⟨r1, q1, w1, c1⟩ st0).1).2 =
      .idle (.duplicate r1) := by
  subst hc
  have hh : generateQueryHash q2 c1 = generateQueryHash q1 c1 :=
    generateQueryHash_deterministic _ _ _ _ hn.symm rfl
  simp only [cacheGet, getJobId] at hcache hdedup
  constructor
  · simp [postQuery, runSubmit, reqStep, cacheGet, getJobId, hcache, hdedup]
  · simp [postQuery, runSubmit, reqStep, cacheGet, getJobId, markInFlight,
      hcache, hdedup, hh, assocGet_assocSet_self]

theorem submit_twice_duplicate_witness :
    normalizeQuery "Add  2 and 2" = normalizeQuery " add 2 and 2 " ∧
    (postQuery true ⟨"r1", "Add  2 and 2", none, []⟩ ⟨[], [], []⟩).2 =
      .idle (.queued "r1") ∧
    (postQuery true ⟨"r2", " add 2 and 2 ", none, []⟩
        (postQuery true ⟨"r1", "Add  2 and 2", none, []⟩ ⟨[], [], []⟩).1).2 =
      .idle (.duplicate "r1") :=
  ⟨by decide,
   submit_twice_duplicate "Add  2 and 2" " add 2 and 2 " [] [] "r1" "r2" none none
     ⟨[], [], []⟩ (by decide) rfl rfl rfl⟩

set_option maxRecDepth 10000 in
/-- Claim C3 is violated by the code: markInFlight is an unconditional SETEX issued
only after queue.add, separate from the getJobId pre-check, so two
submissions of the same fingerprint interleaved at the check/enqueue
boundary both pass the dedup check, both enqueue a job, and the second
SETEX overwrites the first marker. Schedule: A runs its cache and dedup
checks, B runs its whole handler, A resumes with enqueue and mark. -/
theorem race_both_enqueue :
    (runPair true ⟨"a1", "q", none, []⟩ ⟨"b1", "q", none, []⟩
        [true, true, false, false, false, false, true, true]
        ⟨[], [], []⟩ .start .start) =
      (⟨[], [(generateQueryHash "q" [], "a1")],
        [⟨"b1", "q", none, []⟩, ⟨"a1", "q", none, []⟩]⟩,
       .idle (.queued "a1"), .idle (.queued "b1")) := by decide

set_option maxRecDepth 10000 in
/-- Claim C1 is violated by the code: when the worker's post-dequeue cache re-check
hits, the job short-circuits to completion without clearing the in-flight
marker for its fingerprint, which stays set (until TTL expiry, which the
store enforces outside the worker). -/
theorem cache_hit_leaks_marker :
    processJob (.error "backend not invoked") (fun _ => .resp true 200)
        ⟨[(generateQueryHash "q" [], .text "r")], [(generateQueryHash "q" [], "b1")], []⟩
        ⟨"b1", "q", none, []⟩ =
      (⟨[(generateQueryHash "q" [], .text "r")], [(generateQueryHash "q" [], "b1")], []⟩,
       .completedJob (.text "r")) := by decide

set_option maxRecDepth 10000 in
/-- Claim C2 is violated by the code: the worker awaits webhook.deliver inside its
try block, so when delivery exhausts its retries the rethrown error reaches
the catch and the job fails, even though the backend succeeded and the
result was already written to the cache. -/
theorem webhook_failure_fails_job :
    processJob (.ok (.text "r")) (fun _ => .resp false 500)
        ⟨[], [(generateQueryHash "q" [], "b1")], []⟩
        ⟨"b1", "q", some "https://cb.example", []⟩ =
      (⟨[(generateQueryHash "q" [], .text "r")], [], []⟩,
       .failedJob "Webhook failed: 500") := by decide

/-! ## Retry loop lemmas (src/utils/retry.js) -/

theorem withRetryGo_attempts_pos (fn : Nat → Except String α) (base maxD mR fuel a : Nat)
    (hf : 1 ≤ fuel) : 1 ≤ (withRetryGo fn base maxD mR fuel a).attempts := by
  match fuel, hf with
  | fuel + 1, _ =>
    rw [withRetryGo]
    match fn a with
    | .ok v => simp
    | .error e =>
      by_cases h : a = mR
      · simp [h]
      · simp [h]

theorem withRetryGo_allfail (fn : Nat → Except String α) (base maxD mR : Nat)
    (hfail : ∀ n, ∃ e, fn n = .error e) :
    ∀ fuel a, fuel + a = mR + 1 → 1 ≤ fuel →
      (withRetryGo fn base maxD mR fuel a).attempts = fuel ∧
      ∃ e, (withRetryGo fn base maxD mR fuel a).outcome = .error e := by
  intro fuel
  induction fuel with
  | zero => intro a _ h; omega
  | succ k ih =>
    intro a hinv _
    obtain ⟨e, he⟩ := hfail a
    by_cases h : a = mR
    · have hk : k = 0 := by omega
      subst hk
      rw [withRetryGo, he]
      simp [h]
    · have hk : 1 ≤ k := by omega
      have := ih (a + 1) (by omega) hk
      rw [withRetryGo, he]
      simp only [if_neg h]
      exact ⟨by simpa using this.1, this.2⟩

theorem withRetryGo_succeedsAt (fn : Nat → Except String α) (base maxD mR : Nat) (s : Nat)
    (v : α) (hs : s ≤ mR) (hok : fn s = .ok v)
    (hbefore : ∀ n, 1 ≤ n → n < s → ∃ e, fn n = .error e) :
    ∀ fuel a, fuel + a = mR + 1 → 1 ≤ a → a ≤ s →
      (withRetryGo fn base maxD mR fuel a).attempts = s - a + 1 ∧
      (withRetryGo fn base maxD mR fuel a).outcome = .ok (some v) := by
  intro fuel
  induction fuel with
  | zero => intro a hinv _ ha; omega
  | succ k ih =>
    intro a hinv ha1 has
    by_cases h : a = s
    · subst h
      rw [withRetryGo, hok]
      simp
    · obtain ⟨e, he⟩ := hbefore a ha1 (by omega)
      have hamr : ¬ a = mR := by omega
      have := ih (a + 1) (by omega) (by omega) (by omega)
      rw [withRetryGo, he]
      simp only [if_neg hamr]
      refine ⟨?_, this.2⟩
      have h1 := this.1
      simp only [h1]
      omega

theorem withRetryGo_delays (fn : Nat → Except String α) (base maxD mR : Nat) :
    ∀ fuel a, fuel + a = mR + 1 →
      (withRetryGo fn base maxD mR fuel a).delays =
        (List.range' a ((withRetryGo fn base maxD mR fuel a).attempts - 1)).map
          (fun n => min (base * 2 ^ (n - 1)) maxD) := by
  intro fuel
  induction fuel with
  | zero => intro a _; simp [withRetryGo]
  | succ k ih =>
    intro a hinv
    rw [withRetryGo]
    match hfn : fn a with
    | .ok v => simp
    | .error e =>
      by_cases h : a = mR
      · simp [h]
      · have hk : 1 ≤ k := by omega
        have hpos := withRetryGo_attempts_pos fn base maxD mR k (a + 1) hk
        have hd := ih (a + 1) (by omega)
        simp only [if_neg h]
        obtain ⟨m, hm⟩ : ∃ m, (withRetryGo fn base maxD mR k (a + 1)).attempts = m + 1 :=
          ⟨(withRetryGo fn base maxD mR k (a + 1)).attempts - 1, by omega⟩
        simp only [hd, hm]
        simp [List.range'_succ]

/-! ## Claims about webhook delivery and backoff -/

/-- Claim C6: deliver against an endpoint failing the first two attempts and
succeeding on the third (with the configured maxRetries allowing a third
attempt) makes exactly 3 attempts and succeeds; against an endpoint failing
every attempt it makes exactly maxRetries attempts and yields a failure
outcome. -/
theorem deliver_attempt_counts (endpoint : Nat → FetchOutcome) (mR : Nat) (s : Bool × Nat) :
    ((3 ≤ mR ∧ (∃ e1, deliverAttempt endpoint 1 = .error e1) ∧
        (∃ e2, deliverAttempt endpoint 2 = .error e2) ∧
        deliverAttempt endpoint 3 = .ok s) →
      (deliver endpoint mR).attempts = 3 ∧ (deliver endpoint mR).outcome = .ok (some s)) ∧
    ((1 ≤ mR ∧ ∀ n, ∃ e, deliverAttempt endpoint n = .error e) →
      (deliver endpoint mR).attempts = mR ∧
      ∃ e, (deliver endpoint mR).outcome = .error e) := by
  constructor
  · rintro ⟨h3, he1, he2, hok⟩
    have hbefore : ∀ n, 1 ≤ n → n < 3 → ∃ e, deliverAttempt endpoint n = .error e := by
      intro n h1 hlt
      match n, h1, hlt with
      | 1, _, _ => exact he1
      | 2, _, _ => exact he2
    have := withRetryGo_succeedsAt (deliverAttempt endpoint) 1000 30000 mR 3 s h3 hok
      hbefore mR 1 (by omega) (by omega) (by omega)
    exact ⟨by simpa using this.1, this.2⟩
  · rintro ⟨h1, hfail⟩
    exact withRetryGo_allfail (deliverAttempt endpoint) 1000 30000 mR hfail mR 1
      (by omega) h1

theorem deliver_attempt_counts_witness :
    ((deliver (fun n => if n = 3 then .resp true 200 else .resp false 500) 3).attempts = 3 ∧
      (deliver (fun n => if n = 3 then .resp true 200 else .resp false 500) 3).outcome =
        .ok (some (true, 200))) ∧
    ((deliver (fun _ => .resp false 503) 2).attempts = 2 ∧
      ∃ e, (deliver (fun _ => .resp false 503) 2).outcome = .error e) :=
  ⟨(deliver_attempt_counts (fun n => if n = 3 then .resp true 200 else .resp false 500)
      3 (true, 200)).1
    ⟨by omega, ⟨"Webhook failed: 500", by decide⟩, ⟨"Webhook failed: 500", by decide⟩,
      by decide⟩,
   (deliver_attempt_counts (fun _ => .resp false 503) 2 (true, 0)).2
    ⟨by omega, fun n => ⟨"Webhook failed: " ++ toString 503, by simp [deliverAttempt]⟩⟩⟩

/-- Claim C7: the backoff delay recorded between attempt n and attempt n+1 (the
k-th entry of the delay trace, n = k+1) equals min(base * 2^(n-1), maxDelay),
and when base ≤ maxDelay the delay before the second attempt is at least the
configured base delay. -/
theorem withRetry_backoff (fn : Nat → Except String α) (base maxD mR k : Nat)
    (hk : k < (withRetry fn base maxD mR).delays.length) :
    (withRetry fn base maxD mR).delays.get ⟨k, hk⟩ = min (base * 2 ^ k) maxD ∧
    (base ≤ maxD → k = 0 →
      base ≤ (withRetry fn base maxD mR).delays.get ⟨k, hk⟩) := by
  have hd := withRetryGo_delays fn base maxD mR mR 1 (by omega)
  have hget : (withRetry fn base maxD mR).delays.get ⟨k, hk⟩ = min (base * 2 ^ k) maxD := by
    have hk2 : k < (withRetryGo fn base maxD mR mR 1).delays.length := by
      simpa only [withRetry] using hk
    have hlen : k < (withRetryGo fn base maxD mR mR 1).attempts - 1 := by
      rw [hd] at hk2
      simpa using hk2
    have hopt : (withRetry fn base maxD mR).delays[k]? = some (min (base * 2 ^ k) maxD) := by
      simp only [withRetry]
      rw [hd, List.getElem?_map, List.getElem?_eq_getElem (by simpa using hlen)]
      rw [List.getElem_range']
      have hk3 : 1 + 1 * k - 1 = k := by omega
      simp [hk3]
    rw [List.get_eq_getElem]
    have hsome := List.getElem?_eq_getElem hk
    rw [hopt] at hsome
    exact (Option.some.inj hsome).symm
  refine ⟨hget, fun hbm _ => ?_⟩
  rw [hget]
  exact le_min (Nat.le_mul_of_pos_right base (Nat.pos_pow_of_pos k (by omega))) hbm

theorem withRetry_backoff_witness :
    0 < (withRetry (fun _ => (.error "x" : Except String Nat)) 1000 30000 3).delays.length ∧
    1 < (withRetry (fun _ => (.error "x" : Except String Nat)) 1000 30000 3).delays.length ∧
    (withRetry (fun _ => (.error "x" : Except String Nat)) 1000 30000 3).delays.get
      ⟨1, by decide⟩ = min (1000 * 2 ^ 1) 30000 ∧
    1000 ≤ (withRetry (fun _ => (.error "x" : Except String Nat)) 1000 30000 3).delays.get
      ⟨0, by decide⟩ :=
  ⟨by decide, by decide,
   (withRetry_backoff (fun _ => (.error "x" : Except String Nat)) 1000 30000 3 1 (by decide)).1,
   (withRetry_backoff (fun _ => (.error "x" : Except String Nat)) 1000 30000 3 0 (by decide)).2
     (by omega) rfl⟩

/-! ## Claim about the execution backend's output handling -/

/-- Claim C8: when the external process of an attempt exits with status 0, execute
succeeds on that attempt: with parseable stdout it returns the parsed
structured result, otherwise the plain-text fallback tagged as text; a parse
failure on a zero-exit run is never surfaced as an execution failure. -/
theorem execute_zero_exit (parse : String → Option JsonVal)
    (procRun : Nat → Int × String × String) (mR : Nat) (out err : String) (j : JsonVal)
    (hmr : 1 ≤ mR) (hrun : procRun 1 = (0, out, err)) :
    (executeClaude parse procRun mR).attempts = 1 ∧
    (parse out = some j →
      (executeClaude parse procRun mR).outcome = .ok (some (.json j))) ∧
    (parse out = none →
      (executeClaude parse procRun mR).outcome =
        .ok (some (.text (String.mk (jsTrim out.toList))))) ∧
    (∀ e, (executeClaude parse procRun mR).outcome ≠ .error e) := by
  obtain ⟨m, rfl⟩ : ∃ m, mR = m + 1 := ⟨mR - 1, by omega⟩
  have hfn : handleClose parse (procRun 1).1 (procRun 1).2.1 (procRun 1).2.2 =
      .ok (match parse out with
           | some j' => ExecValue.json j'
           | none => ExecValue.text (String.mk (jsTrim out.toList))) := by
    rw [hrun]
    simp only [handleClose, if_pos rfl]
    cases parse out <;> rfl
  have hcore : executeClaude parse procRun (m + 1) =
      ⟨1, [], .ok (some (match parse out with
        | some j' => ExecValue.json j'
        | none => ExecValue.text (String.mk (jsTrim out.toList))))⟩ := by
    simp only [executeClaude, withRetry]
    rw [withRetryGo]
    simp only [hfn]
  refine ⟨by rw [hcore], fun hp => ?_, fun hp => ?_, fun e => ?_⟩
  · rw [hcore]; simp [hp]
  · rw [hcore]; simp [hp]
  · rw [hcore]; simp

theorem execute_zero_exit_witness :
    (executeClaude (fun _ => none) (fun _ => (0, "plain text", "")) 3).attempts = 1 ∧
    (executeClaude (fun _ => none) (fun _ => (0, "plain text", "")) 3).outcome =
      .ok (some (.text (String.mk (jsTrim "plain text".toList)))) :=
  ⟨(execute_zero_exit (fun _ => none) (fun _ => (0, "plain text", "")) 3 "plain text" ""
      JsonVal.jnull (by omega) rfl).1,
   (execute_zero_exit (fun _ => none) (fun _ => (0, "plain text", "")) 3 "plain text" ""
      JsonVal.jnull (by omega) rfl).2.2.1 rfl⟩

/-! ## Claims about the intent classifier and MCP routing -/

theorem detectIntentGo_first (q : String) :
    ∀ (l : List (String × List String)) (i : Nat) (hi : i < l.length),
      (∀ j (hj : j < i), testPattern q (l.get ⟨j, Nat.lt_trans hj hi⟩).2 = false) →
      testPattern q (l.get ⟨i, hi⟩).2 = true →
      detectIntentGo q l = (l.get ⟨i, hi⟩).1
  | [], i, hi => by simp at hi
  | (intent, kws) :: t, 0, hi => by
    intro _ hmatch
    simp only [List.get] at hmatch ⊢
    simp only [detectIntentGo]
    simp [hmatch]
  | (intent, kws) :: t, i' + 1, hi => by
    intro hprev hmatch
    have h0 : testPattern q kws = false := by
      simpa using hprev 0 (Nat.succ_pos i')
    simp only [List.get] at hmatch ⊢
    simp only [detectIntentGo, h0]
    have hi' : i' < t.length := by simpa using hi
    have hprev' : ∀ j (hj : j < i'), testPattern q (t.get ⟨j, Nat.lt_trans hj hi'⟩).2 = false := by
      intro j hj
      simpa using hprev (j + 1) (Nat.succ_lt_succ hj)
    simpa using detectIntentGo_first q t i' hi' hprev' hmatch

theorem detectIntentGo_nomatch (q : String) :
    ∀ (l : List (String × List String)), (∀ p ∈ l, testPattern q p.2 = false) →
      detectIntentGo q l = "general"
  | [], _ => rfl
  | (intent, kws) :: t, h => by
    have h0 : testPattern q kws = false := by
      simpa using h (intent, kws) (List.mem_cons_self _ _)
    simp only [detectIntentGo, h0]
    simpa using detectIntentGo_nomatch q t (fun p hp => h p (List.mem_cons_of_mem _ hp))

/-- Claim C9: the intent classifier is a pure function of the query text checking
the fixed ordered pattern list and returning the domain of the first pattern
that matches; on no match it returns "general", for which the MCP router
derives an empty server list (whether or not MCP routing is enabled). -/
theorem detectIntent_first_match (q : String) (i : Nat) (hi : i < intentPatterns.length) :
    ((∀ j (hj : j < i), testPattern q (intentPatterns.get ⟨j, Nat.lt_trans hj hi⟩).2 = false) →
      testPattern q (intentPatterns.get ⟨i, hi⟩).2 = true →
      detectIntent q = (intentPatterns.get ⟨i, hi⟩).1) ∧
    ((∀ p ∈ intentPatterns, testPattern q p.2 = false) →
      detectIntent q = "general" ∧ ∀ enabled, getServersForQuery enabled q = []) := by
  constructor
  · intro hprev hmatch
    exact detectIntentGo_first q intentPatterns i hi hprev hmatch
  · intro hall
    have hgen : detectIntent q = "general" := detectIntentGo_nomatch q intentPatterns hall
    refine ⟨hgen, fun enabled => ?_⟩
    cases enabled
    · rfl
    · simp only [getServersForQuery, hgen]
      rfl

theorem detectIntent_first_match_witness :
    detectIntent "select from users" = "database" ∧
    detectIntent "hello there" = "general" ∧
    getServersForQuery true "hello there" = [] := by
  have h2 := (detectIntent_first_match "hello there" 0 (by decide)).2 (by decide)
  refine ⟨?_, h2.1, h2.2 true⟩
  exact (detectIntent_first_match "select from users" 1 (by decide)).1
    (by
      intro j hj
      have hj0 : j = 0 := by omega
      subst hj0
      exact (by decide :
        testPattern "select from users" (intentPatterns.get ⟨0, Nat.succ_pos 3⟩).2 = false))
    (by decide)
